import Mathlib

/-!
Verification of the roogle structural code-search engine (`src/src/*.rs`).

The shallow embedding below translates the data model, the query parsers,
the per-file indexing maps and the matching engine of the repository into
Lean.  The external crate `syn` (full Rust parsing) is out of scope for the
repository itself; its output is modelled by the `Syn*` value types, and the
query-side token streams by `Tok`.  Rust `HashMap`s are modelled by
association lists whose lookup returns the binding of the most recent
insertion for a key (exactly the observable behaviour of insert-overwrite
hash maps), `HashSet`s and `BTreeSet`s by duplicate-free lists.
-/

namespace Roogle

/-- Rust's `str::to_lowercase` as the sources use it (ASCII identifiers and
type spellings); defined structurally on the character list so that the
kernel can evaluate it. -/
def toLowerStr (s : String) : String := ⟨s.data.map Char.toLower⟩

/-- `loc.rs`: `Loc(file_path, line, column)`; `PathBuf` is modelled by `String`. -/
structure Loc where
  file : String
  line : Nat
  col : Nat
deriving DecidableEq

/-- A `syn::Type` as the matching engine sees it: its `proc_macro2` token
rendering, plus the one structural fact the code inspects, namely whether it
is `Type::Tuple` with no elements (`matches!(**ty, Type::Tuple(ref t) if
t.elems.is_empty())` in `main.rs`). -/
structure SynType where
  tokens : String
  isUnit : Bool
deriving DecidableEq

/-- `main.rs`: `enum ReturnType { Default, Type(Box<Type>) }`. -/
inductive ReturnType where
  | default
  | type (ty : SynType)
deriving DecidableEq

/-- `main.rs`, `impl ToTokens for ReturnType`: `Default` and an explicit empty
tuple both render to the empty token stream. -/
def ReturnType.toTokenString : ReturnType → String
  | .default => ""
  | .type ty => if ty.isUnit then "" else ty.tokens

/-- `fnarg.rs`: `FnArg { name, ty }` where both fields hold lowercased token
strings produced by `to_boxed_string`. -/
structure FnArg where
  name : Option String
  ty : Option String
deriving DecidableEq

/-- `fnsig.rs`: `FnSignature { name, inputs, output }`. -/
structure FnSignature where
  name : Option String
  inputs : List FnArg
  output : ReturnType
deriving DecidableEq

/-- `main.rs` `inputs_to_string`: each argument type is rendered by
`quote!(#ty).to_string()` (for `Option<Box<String>>` this prints a quoted
string literal for `Some` and nothing for `None`) and the pieces are
concatenated by `collect::<String>()`. -/
def quoteArgTy : Option String → String
  | none => ""
  | some s => "\"" ++ s ++ "\""

def inputsToString (inputs : List FnArg) : String :=
  String.join (inputs.map (fun a => quoteArgTy a.ty))

/-- `fnsig.rs` `impl PartialEq for FnSignature`: the declared `name` is
ignored; argument count, the lowercased concatenation of argument types and
the lowercased output rendering must agree.  The source's early returns are
the short-circuit conjunction below. -/
def fnSigBeq (a b : FnSignature) : Bool :=
  a.inputs.length == b.inputs.length &&
  toLowerStr (inputsToString a.inputs) == toLowerStr (inputsToString b.inputs) &&
  toLowerStr a.output.toTokenString == toLowerStr b.output.toTokenString

/-- Model of the syn-side function argument (`syn::FnArg`). -/
inductive SynFnArg where
  | receiver
  | typed (patIdent : Option String) (ty : SynType)

/-- Model of `syn::ReturnType`. -/
inductive SynReturnType where
  | default
  | type (ty : SynType)

/-- Model of `syn::Signature` (also covers `ImplItemFn.sig`). -/
structure SynSignature where
  ident : String
  inputs : List SynFnArg
  output : SynReturnType

/-- `main.rs` `signature_get_inputs`: receivers are dropped; a typed argument
keeps its (lowercased) pattern identifier when the pattern is an identifier
and its lowercased type tokens. -/
def signatureGetInputs (inputs : List SynFnArg) : List FnArg :=
  inputs.filterMap (fun a =>
    match a with
    | .receiver => none
    | .typed patIdent ty =>
        some { name := patIdent.map toLowerStr, ty := some (toLowerStr ty.tokens) })

/-- `main.rs` `signature_get_output`. -/
def signatureGetOutput : SynReturnType → ReturnType
  | .default => .default
  | .type ty => .type ty

/-- `fnsig.rs` `impl From<Signature> for FnSignature` (same body for
`ImplItemFn`). -/
def fnSignatureFromSig (sig : SynSignature) : FnSignature :=
  { name := some (toLowerStr sig.ident),
    inputs := signatureGetInputs sig.inputs,
    output := signatureGetOutput sig.output }

/-- Observable behaviour of `FnSigMap = HashMap<FnSignature, Loc>` built by
`collect` (insertion overwrites on key collision): `get` returns the value of
the latest insertion whose key compares equal to the query. -/
def fnMapGet (entries : List (FnSignature × Loc)) (q : FnSignature) : Option Loc :=
  entries.foldl (fun acc e => if fnSigBeq q e.1 then some e.2 else acc) none

/-- `main.rs`, `Item::FnSignature` branch: one `FnSigMap` per file (keys in
declaration order), then `maps.iter().filter_map(|map| map.get(&fnsig))`. -/
def fnSearch (q : FnSignature) (files : List (List (Loc × FnSignature))) : List Loc :=
  files.filterMap (fun sigs => fnMapGet (sigs.map (fun p => (p.2, p.1))) q)

/-! ## Query tokens and the query parsers

`Tok` models a `proc_macro2` token tree of the query string: delimited
groups carry their content, `self` is a keyword token (accepted inside types
by syn path parsing but rejected by `peek(Ident)`). -/

inductive Tok where
  | kfn
  | kstruct
  | kenum
  | kself
  | ident (s : String)
  | amp
  | colon
  | comma
  | semi
  | arrow
  | paren (ts : List Tok)
  | brace (ts : List Tok)

mutual

/-- Executable size of a token (groups count their content), used only to
supply enough fuel to the fuel-bounded parsers below. -/
def Tok.size : Tok → Nat
  | .paren ts => 1 + Tok.sizeList ts
  | .brace ts => 1 + Tok.sizeList ts
  | _ => 1

def Tok.sizeList : List Tok → Nat
  | [] => 0
  | t :: ts => Tok.size t + Tok.sizeList ts

end

mutual

/-- Fuel-bounded model of `syn`'s `Type` parser restricted to the type forms
a roogle query can mention: plain path identifiers (including the keyword
`self`), references `&T`, and tuples.  Rendering follows `proc_macro2`
spacing (`&self` prints as `& self`). -/
def parseTypeF : Nat → List Tok → Option (SynType × List Tok)
  | 0, _ => none
  | fuel + 1, ts =>
    match ts with
    | .amp :: rest =>
        match parseTypeF fuel rest with
        | some (t, r) => some ({ tokens := "& " ++ t.tokens, isUnit := false }, r)
        | none => none
    | .kself :: rest => some ({ tokens := "self", isUnit := false }, rest)
    | .ident s :: rest => some ({ tokens := s, isUnit := false }, rest)
    | .paren [] :: rest => some ({ tokens := "()", isUnit := true }, rest)
    | .paren inner :: rest =>
        match parseTypeListF fuel inner with
        | some elems =>
            some ({ tokens := "(" ++ String.intercalate " , " (elems.map SynType.tokens) ++ ")",
                    isUnit := false }, rest)
        | none => none
    | _ => none

/-- Comma-separated list of types consuming the whole stream (tuple body). -/
def parseTypeListF : Nat → List Tok → Option (List SynType)
  | 0, _ => none
  | fuel + 1, ts =>
    match parseTypeF fuel ts with
    | none => none
    | some (t, []) => some [t]
    | some (t, .comma :: rest) =>
        if rest.isEmpty then some [t]
        else
          match parseTypeListF fuel rest with
          | some more => some (t :: more)
          | none => none
    | some _ => none

end

def parseType (ts : List Tok) : Option (SynType × List Tok) :=
  parseTypeF (Tok.sizeList ts + 1) ts

/-- `fnarg.rs` `impl Parse for FnArg`: parse a `Type`; if a `:` follows, that
type was the argument name and the real type comes next, otherwise it is a
bare type.  Both name and type go through `to_boxed_string` (lowercased token
text). -/
def parseFnArg (ts : List Tok) : Option (FnArg × List Tok) :=
  match parseType ts with
  | none => none
  | some (t1, rest) =>
    match rest with
    | .colon :: rest2 =>
        match parseType rest2 with
        | none => none
        | some (t2, rest3) =>
            some ({ name := some (toLowerStr t1.tokens), ty := some (toLowerStr t2.tokens) }, rest3)
    | _ => some ({ name := none, ty := some (toLowerStr t1.tokens) }, rest)

/-- The argument loop of `fnsig.rs` `impl Parse for FnSignature`: while the
group is non-empty parse an argument, then consume a `,` or break.  Breaking
with tokens left in the group makes `syn::parse_str` report the leftover as
an unexpected token, so the whole query parse fails. -/
def parseFnArgsLoopF : Nat → List Tok → Option (List FnArg)
  | 0, _ => none
  | _ + 1, [] => some []
  | fuel + 1, ts =>
    match parseFnArg ts with
    | none => none
    | some (a, rest) =>
      match rest with
      | .comma :: rest2 =>
          match parseFnArgsLoopF fuel rest2 with
          | some more => some (a :: more)
          | none => none
      | [] => some [a]
      | _ => none

/-- `fnsig.rs` `impl Parse for FnSignature`: skip a leading `fn` (silently),
take an optional identifier as the ignored name, parse the parenthesized
argument list, then a `syn::ReturnType` (`-> Type` or nothing). -/
def parseFnSignature (ts : List Tok) : Option (FnSignature × List Tok) :=
  let ts := match ts with
    | .kfn :: r => r
    | _ => ts
  let nameTs : Option String × List Tok := match ts with
    | .ident s :: r => (some s, r)
    | _ => (none, ts)
  match nameTs.2 with
  | .paren content :: rest =>
    match parseFnArgsLoopF (Tok.sizeList content + 1) content with
    | none => none
    | some inputs =>
      match rest with
      | .arrow :: rest2 =>
          match parseType rest2 with
          | none => none
          | some (t, r) => some ({ name := nameTs.1, inputs := inputs, output := .type t }, r)
      | _ => some ({ name := nameTs.1, inputs := inputs, output := .default }, rest)
  | _ => none

/-! ## Records (structs): data model of `fields.rs` / `structdef.rs`

`structdef.rs` still carries a private copy of `Field` with a mandatory type,
but `structmap.rs` and the `Item::StructDef` branch of `main.rs` pattern
match `f.ty` as an `Option`, i.e. they use the `fields.rs` shape; the model
follows `fields.rs` (`ty` is absent only for query-side bare-name fields). -/

structure Field where
  name : Option String
  ty : Option String
deriving DecidableEq

inductive Fields where
  | named (fs : List Field)
  | unnamed (fs : List Field)
  | unit
deriving DecidableEq

/-- `fields.rs` `Fields::iter`: `Unit` yields the empty iterator. -/
def Fields.iterList : Fields → List Field
  | .named fs => fs
  | .unnamed fs => fs
  | .unit => []

/-- `fields.rs` `Fields::par_iter`: `None` exactly for `Unit`. -/
def Fields.parIterOpt : Fields → Option (List Field)
  | .named fs => some fs
  | .unnamed fs => some fs
  | .unit => none

structure StructDef where
  name : Option String
  is_tup : Bool
  fields : Fields
deriving DecidableEq

/-- Model of `syn::Field` / `syn::Fields` / `syn::ItemStruct`. -/
structure SynField where
  ident : Option String
  ty : SynType

inductive SynFields where
  | named (fs : List SynField)
  | unnamed (fs : List SynField)
  | unit

structure SynItemStruct where
  ident : String
  fields : SynFields

def SynFields.list : SynFields → List SynField
  | .named fs => fs
  | .unnamed fs => fs
  | .unit => []

/-- `fields.rs` `impl From<syn::Fields> for Fields`: field names and types are
lowercased token text, the shape kind is preserved. -/
def fieldsFromSyn (fs : SynFields) : Fields :=
  let conv := fun (f : SynField) =>
    Field.mk (f.ident.map toLowerStr) (some (toLowerStr f.ty.tokens))
  match fs with
  | .named l => .named (l.map conv)
  | .unnamed l => .unnamed (l.map conv)
  | .unit => .unit

/-- `structdef.rs` `impl From<syn::ItemStruct> for StructDef`:
`is_tup = matches!(fields, syn::Fields::Unnamed(_))`. -/
def structDefFromSyn (s : SynItemStruct) : StructDef :=
  { name := some (toLowerStr s.ident),
    is_tup := match s.fields with
      | .unnamed _ => true
      | _ => false,
    fields := fieldsFromSyn s.fields }

/-! ## The per-file record shard, `structmap.rs` `StructDefMap`

`types` models the `IndexMap<&str, HashSet<&Loc>>` (insertion-ordered keys,
duplicate-free location sets), `field_names` the `BTreeSet<&str>` (sorted,
duplicate-free), `names` the finalized `fst::Set` (exact-membership string
set), `all_defs` the `HashMap<&Loc, &StructDef>` (last insertion wins). -/

structure StructDefMap where
  types : List (String × List Loc)
  field_names : List String
  names : Option (List String)
  all_defs : List (Loc × StructDef)

def sdmNew : StructDefMap :=
  { types := [], field_names := [], names := none, all_defs := [] }

def setInsertLoc (s : List Loc) (l : Loc) : List Loc :=
  if l ∈ s then s else s ++ [l]

def typesInsert : List (String × List Loc) → String → Loc → List (String × List Loc)
  | [], ty, l => [(ty, [l])]
  | (k, s) :: rest, ty, l =>
      if k = ty then (k, setInsertLoc s l) :: rest else (k, s) :: typesInsert rest ty l

def typesLookup : List (String × List Loc) → String → Option (List Loc)
  | [], _ => none
  | (k, s) :: rest, ty => if k = ty then some s else typesLookup rest ty

/-- Lexicographic order on character lists (Rust's `Ord` for `&str`,
byte-lexicographic, agrees with this on the ASCII strings involved); defined
structurally so the kernel can evaluate it. -/
def charListLt : List Char → List Char → Bool
  | [], [] => false
  | [], _ :: _ => true
  | _ :: _, [] => false
  | a :: as, b :: bs =>
      if a.val < b.val then true
      else if b.val < a.val then false
      else charListLt as bs

def strLt (a b : String) : Bool := charListLt a.data b.data

/-- `BTreeSet<&str>::insert`: keep the list sorted and duplicate-free. -/
def btreeInsert : List String → String → List String
  | [], s => [s]
  | x :: xs, s =>
      if strLt s x then s :: x :: xs
      else if s = x then x :: xs
      else x :: btreeInsert xs s

def allDefsInsert : List (Loc × StructDef) → Loc → StructDef → List (Loc × StructDef)
  | [], l, d => [(l, d)]
  | (k, v) :: rest, l, d =>
      if k = l then (k, d) :: rest else (k, v) :: allDefsInsert rest l d

def allDefsLookup : List (Loc × StructDef) → Loc → Option StructDef
  | [], _ => none
  | (k, v) :: rest, l => if k = l then some v else allDefsLookup rest l

/-- The per-field body of `structmap.rs` `StructDefMap::insert`: a named
field feeds the name set, a typed field feeds the type index. -/
def sdmInsertFieldStep (loc : Loc) (m : StructDefMap) (f : Field) : StructDefMap :=
  let m := match f.name with
    | some n => { m with field_names := btreeInsert m.field_names n }
    | none => m
  match f.ty with
  | some ty => { m with types := typesInsert m.types ty loc }
  | none => m

/-- `structmap.rs` `StructDefMap::insert`: every field with a name feeds the
name set, every field with a type feeds the type index, and the definition is
recorded under its location. -/
def sdmInsert (m : StructDefMap) (d : StructDef) (loc : Loc) : StructDefMap :=
  let m := d.fields.iterList.foldl (sdmInsertFieldStep loc) m
  { m with all_defs := allDefsInsert m.all_defs loc d }

/-- `structmap.rs` `StructDefMap::finalize`: materialize the sorted name set
as the fst automaton input. -/
def sdmFinalize (m : StructDefMap) : StructDefMap :=
  { m with names := some m.field_names }

/-- `structmap.rs` `StructDefMap::find_types`: look the type up in the type
index and keep only locations whose recorded definition has the queried
tuple-ness. -/
def sdmFindTypes (m : StructDefMap) (fieldType : String) (isTup : Bool) : List Loc :=
  match typesLookup m.types fieldType with
  | none => []
  | some s => s.filter (fun loc =>
      match allDefsLookup m.all_defs loc with
      | some d => d.is_tup == isTup
      | none => false)

/-- `structmap.rs` `StructDefMap::find_names`: the `Str` automaton matches
exactly the queried string against the finalized name set; every matching
name contributes the locations of the definitions of the queried tuple-ness
having a field of that name (`Unit` fields yield no iterator). -/
def sdmFindNames (m : StructDefMap) (fieldName : String) (isTup : Bool) : List Loc :=
  match m.names with
  | none => []
  | some names =>
      (names.filter (fun n => n = fieldName)).flatMap (fun name =>
        m.all_defs.filterMap (fun p =>
          if p.2.is_tup != isTup then none
          else
            match p.2.fields.parIterOpt with
            | none => none
            | some fs => if fs.any (fun f => f.name = some name) then some p.1 else none))

def buildStructMap (defs : List (Loc × StructDef)) : StructDefMap :=
  sdmFinalize (defs.foldl (fun m p => sdmInsert m p.2 p.1) sdmNew)

/-- `main.rs`, `Item::StructDef` branch: build one map per file; when the
query's fields are `Unit`, `par_iter` yields `None` and the program returns
early (modelled as `none`); otherwise every query field contributes its name
lookup when it has a name, else its type lookup, and the per-field, per-file
results are concatenated. -/
def structSearch (d : StructDef) (files : List (List (Loc × StructDef))) : Option (List Loc) :=
  let maps := files.map buildStructMap
  match d.fields.parIterOpt with
  | none => none
  | some qfields =>
      some (qfields.flatMap (fun f =>
        match f.name with
        | some n => maps.flatMap (fun m => sdmFindNames m n d.is_tup)
        | none =>
          match f.ty with
          | some ty => maps.flatMap (fun m => sdmFindTypes m ty d.is_tup)
          | none => []))

/-! ## Unions (enums): `enumdef.rs` -/

structure Variant where
  name : Option String
  fields : Fields
deriving DecidableEq

structure EnumDef where
  name : Option String
  variants : List Variant
deriving DecidableEq

/-- The `map_or(false, ...)` name comparison used throughout `enumdef.rs`:
two present names that are equal. -/
def optNameEq : Option String → Option String → Bool
  | some a, some b => a == b
  | _, _ => false

/-- `enumdef.rs` `EnumDef::matches_field`: name equality first, else type
equality, each only when both sides are present. -/
def matchesField (q f : Field) : Bool :=
  if optNameEq q.name f.name then true
  else
    match q.ty, f.ty with
    | some qt, some t => qt == t
    | _, _ => false

/-- `enumdef.rs` `EnumDef::matches_fields`: `Unit` matches only `Unit`;
`Named`/`Unnamed` match only the same kind, by some query field matching
some candidate field. -/
def matchesFields : Fields → Fields → Bool
  | .unit, .unit => true
  | .named qs, .named fs => qs.any (fun qf => fs.any (fun f => matchesField qf f))
  | .unnamed qs, .unnamed fs => qs.any (fun qf => fs.any (fun f => matchesField qf f))
  | _, _ => false

/-- `enumdef.rs` `EnumDef::matches_variant`. -/
def matchesVariant (q v : Variant) : Bool :=
  if optNameEq q.name v.name then true
  else matchesFields q.fields v.fields

/-- `enumdef.rs` `EnumDef::matches_enum_def`. -/
def matchesEnumDef (q c : EnumDef) : Bool :=
  if optNameEq q.name c.name then true
  else q.variants.any (fun qv => c.variants.any (fun v => matchesVariant qv v))

/-- `enumdef.rs` `EnumDef::search_enum_def`: linear scan, keep the locations
of matching candidates. -/
def searchEnumDef (q : EnumDef) (enums : List (Loc × EnumDef)) : List Loc :=
  (enums.filter (fun p => matchesEnumDef q p.2)).map (fun p => p.1)

/-- Model of `syn::Variant` / `syn::ItemEnum`. -/
structure SynVariant where
  ident : String
  fields : SynFields

structure SynItemEnum where
  ident : String
  variants : List SynVariant

/-- `enumdef.rs` `impl From<syn::ItemEnum> for EnumDef`. -/
def enumDefFromSyn (e : SynItemEnum) : EnumDef :=
  { name := some (toLowerStr e.ident),
    variants := e.variants.map (fun v =>
      { name := some (toLowerStr v.ident), fields := fieldsFromSyn v.fields }) }

/-! ## Query parsers for records and unions -/

/-- `fields.rs` `parse_optionaly_named_field`: a `name :` prefix is taken
only when the second token is `:` and the third is not (`::` guard);
otherwise the whole input is a bare type.  An empty rest yields `ty = None`.
A leading token that satisfies the peeks but is not an identifier makes the
`parse::<Ident>().unwrap()` panic (modelled as `none`). -/
def parseOptNamedField (ts : List Tok) : Option (Field × List Tok) :=
  match ts with
  | .ident _ :: .colon :: .colon :: _ =>
      match parseType ts with
      | none => none
      | some (t, r) => some ({ name := none, ty := some (toLowerStr t.tokens) }, r)
  | .ident s :: .colon :: rest =>
      if rest.isEmpty then some ({ name := some (toLowerStr s), ty := none }, [])
      else
        match parseType rest with
        | none => none
        | some (t, r) => some ({ name := some (toLowerStr s), ty := some (toLowerStr t.tokens) }, r)
  | _ :: .colon :: _ => none
  | _ =>
      if ts.isEmpty then some ({ name := none, ty := none }, [])
      else
        match parseType ts with
        | none => none
        | some (t, r) => some ({ name := none, ty := some (toLowerStr t.tokens) }, r)

/-- The braced-fields loop of `structdef.rs` `impl Parse for StructDef`.
Note the source skips the separating comma on the outer stream (`skip_tokens!
(input, ,)`), not on the brace content, so the content is re-entered still
holding the comma; the loop only succeeds beyond one field when the fields
are not comma-separated. -/
def structBracedLoopF : Nat → List Tok → Option (List Field)
  | 0, _ => none
  | fuel + 1, content =>
    if content.isEmpty then some []
    else
      match parseOptNamedField content with
      | none => none
      | some (f, rest) =>
        if rest.isEmpty then some [f]
        else
          match structBracedLoopF fuel rest with
          | some more => some (f :: more)
          | none => none

/-- `structdef.rs` `impl Parse for StructDef`: optional identifier, then a
braced field list, a parenthesized field list, or `;` (unit).  In the
parenthesized branch the source parses the field types from the OUTER stream
(`input.parse::<Type>()?`) while testing emptiness of the group content,
which it never consumes: with a non-empty group the loop can only terminate
through a parse error, so every tuple query with at least one field fails. -/
def parseStructDefQ (ts : List Tok) : Option (StructDef × List Tok) :=
  let ts := match ts with
    | .kstruct :: r => r
    | _ => ts
  let nameTs : Option String × List Tok := match ts with
    | .ident s :: r => (some (toLowerStr s), r)
    | _ => (none, ts)
  match nameTs.2 with
  | .brace content :: rest =>
      match structBracedLoopF (Tok.sizeList content + 1) content with
      | some fs => some ({ name := nameTs.1, is_tup := false, fields := .named fs }, rest)
      | none => none
  | .paren content :: rest =>
      if content.isEmpty then
        some ({ name := nameTs.1, is_tup := true, fields := .unnamed [] }, rest)
      else none
  | .semi :: rest => some ({ name := nameTs.1, is_tup := false, fields := .unit }, rest)
  | _ => none

/-- The named-fields loop of a braced enum variant (`enumdef.rs`): here the
separating comma IS consumed from the inner content
(`inner_content.parse::<Token![,]>().unwrap()`), panicking when the next
token is not a comma. -/
def enumNamedFieldsLoopF : Nat → List Tok → Option (List Field)
  | 0, _ => none
  | fuel + 1, inner =>
    if inner.isEmpty then some []
    else
      match parseOptNamedField inner with
      | none => none
      | some (f, rest) =>
        if rest.isEmpty then some [f]
        else
          match rest with
          | .comma :: r2 =>
              match enumNamedFieldsLoopF fuel r2 with
              | some more => some (f :: more)
              | none => none
          | _ => none

/-- The unnamed-fields loop of a parenthesized enum variant (`enumdef.rs`):
comma-separated types read from the inner content. -/
def enumUnnamedFieldsLoopF : Nat → List Tok → Option (List Field)
  | 0, _ => none
  | fuel + 1, inner =>
    if inner.isEmpty then some []
    else
      match parseType inner with
      | none => none
      | some (t, rest) =>
        let f : Field := { name := none, ty := some (toLowerStr t.tokens) }
        if rest.isEmpty then some [f]
        else
          match rest with
          | .comma :: r2 =>
              match enumUnnamedFieldsLoopF fuel r2 with
              | some more => some (f :: more)
              | none => none
          | _ => none

/-- The variant loop of `enumdef.rs` `impl Parse for EnumDef`.  Each round
parses a `Type` as the candidate variant name, skips one comma, and — when
the content is then EXHAUSTED — pushes an anonymous variant whose single
unnamed field's type is that name (so a trailing lone identifier is a field
TYPE, not a variant name).  Otherwise the name stands and the fields are a
braced list, a parenthesized list (or `Unit` when a second group follows
immediately), or the NEXT type parsed as a single unnamed field. -/
def enumVariantsLoopF : Nat → List Tok → Option (List Variant)
  | 0, _ => none
  | fuel + 1, content =>
    if content.isEmpty then some []
    else
      match parseType content with
      | none => none
      | some (t, afterTy) =>
        let afterComma := match afterTy with
          | .comma :: r => r
          | r => r
        if afterComma.isEmpty then
          some [{ name := none, fields := .unnamed [{ name := none, ty := some (toLowerStr t.tokens) }] }]
        else
          let vname := some (toLowerStr t.tokens)
          let stepRest : Option (Fields × List Tok) :=
            match afterComma with
            | .brace inner :: r2 =>
                match enumNamedFieldsLoopF (Tok.sizeList inner + 1) inner with
                | some fs => some (.named fs, r2)
                | none => none
            | .paren _ :: .paren g2 :: r3 =>
                -- content.peek2(Paren): parse_any_delimiter consumes the first group
                some (.unit, .paren g2 :: r3)
            | .paren inner :: r2 =>
                match enumUnnamedFieldsLoopF (Tok.sizeList inner + 1) inner with
                | some fs => some (.unnamed fs, r2)
                | none => none
            | other =>
                match parseType other with
                | some (t2, r2) =>
                    some (.unnamed [{ name := none, ty := some (toLowerStr t2.tokens) }], r2)
                | none => none
          match stepRest with
          | none => none
          | some (fields, rest) =>
            let rest := match rest with
              | .comma :: r => r
              | r => r
            match enumVariantsLoopF fuel rest with
            | some more => some ({ name := vname, fields := fields } :: more)
            | none => none

/-- `enumdef.rs` `impl Parse for EnumDef`: skip `enum`, optional identifier,
then the braced variant list. -/
def parseEnumDefQ (ts : List Tok) : Option (EnumDef × List Tok) :=
  let ts := match ts with
    | .kenum :: r => r
    | _ => ts
  let nameTs : Option String × List Tok := match ts with
    | .ident s :: r => (some (toLowerStr s), r)
    | _ => (none, ts)
  match nameTs.2 with
  | .brace content :: rest =>
      match enumVariantsLoopF (Tok.sizeList content + 1) content with
      | some vs => some ({ name := nameTs.1, variants := vs }, rest)
      | none => none
  | _ => none

/-! ## The query item and the pipeline (`item.rs`, `main.rs`) -/

/-- The query item dispatched by `main`.  `main.rs` matches on a
`Item::EnumDef` arm; the snapshot's `item.rs` lags behind it and still lists
only the struct and function constructors. -/
inductive Item where
  | structDef (d : StructDef)
  | enumDef (d : EnumDef)
  | fnSignature (s : FnSignature)
deriving DecidableEq

/-- `item.rs` `impl Parse for Item` (as in the snapshot): a leading `fn`
dispatches to the function-signature grammar, a leading `struct` to the
record grammar; anything else panics.  `syn::parse_str` additionally demands
that the whole input be consumed. -/
def parseItem (ts : List Tok) : Option Item :=
  match ts with
  | .kfn :: rest =>
      match parseFnSignature rest with
      | some (sig, leftover) => if leftover.isEmpty then some (.fnSignature sig) else none
      | none => none
  | .kstruct :: rest =>
      match parseStructDefQ rest with
      | some (d, leftover) => if leftover.isEmpty then some (.structDef d) else none
      | none => none
  | _ => none

/-- One discovered `.rs` file of the corpus: whether `read_to_string`
succeeds, whether the external `syn::parse_str::<File>` succeeds, and the
declarations extraction would produce when both do. -/
structure SourceFile where
  readOk : Bool
  parseOk : Bool
  fnsigs : List (Loc × FnSignature)
  structdefs : List (Loc × StructDef)
  enumdefs : List (Loc × EnumDef)

/-- `main.rs`: `contents` keeps the files whose read succeeded. -/
def contentsOf (files : List SourceFile) : List SourceFile :=
  files.filter (fun f => f.readOk)

/-- `main.rs`: `items` keeps, of those, the files whose parse succeeded. -/
def itemsOf (files : List SourceFile) : List SourceFile :=
  (contentsOf files).filter (fun f => f.parseOk)

/-- The merged result list of `main`'s query dispatch; `none` models the
early `return ExitCode::SUCCESS` of a unit-fields record query. -/
def queryResults (it : Item) (files : List SourceFile) : Option (List Loc) :=
  match it with
  | .structDef d => structSearch d ((itemsOf files).map SourceFile.structdefs)
  | .enumDef q => some (searchEnumDef q ((itemsOf files).flatMap SourceFile.enumdefs))
  | .fnSignature q => some (fnSearch q ((itemsOf files).map SourceFile.fnsigs))

def locLine (loc : Loc) : String :=
  loc.file ++ ":" ++ toString loc.line ++ ":" ++ toString loc.col

/-- `main.rs` `print_results`. -/
def printResults (rs : List Loc) : List String :=
  if rs.isEmpty then ["[no results]"] else rs.map locLine

/-- The trailing `[searched in N file(s)]` line of `main`. -/
def searchedLine (n : Nat) : String :=
  "[searched in " ++ toString n ++ " " ++ (if n == 1 then "file" else "files") ++ "]"

/-- Everything `main` prints to stdout after the query has parsed: the result
lines then the trailing count — except that a unit-fields record query
returns before either. -/
def runLines (it : Item) (files : List SourceFile) : List String :=
  match queryResults it files with
  | none => []
  | some rs => printResults rs ++ [searchedLine (contentsOf files).length]

/-- Whether a `Fields` value is the `Unit` shape (the case in which
`par_iter` yields `None` and `main` returns early). -/
def Fields.isUnitB : Fields → Bool
  | .unit => true
  | _ => false

/-! ## Concrete fixtures used by the claim theorems -/

/-- `fn add(x: i32, y: i32) -> i32` as extracted from a source file. -/
def addFnDecl : FnSignature :=
  fnSignatureFromSig
    ⟨"add", [.typed (some "x") ⟨"i32", false⟩, .typed (some "y") ⟨"i32", false⟩],
     .type ⟨"i32", false⟩⟩

/-- `fn sum(a: i32, b: i32) -> i32` as extracted from a source file. -/
def sumFnDecl : FnSignature :=
  fnSignatureFromSig
    ⟨"sum", [.typed (some "a") ⟨"i32", false⟩, .typed (some "b") ⟨"i32", false⟩],
     .type ⟨"i32", false⟩⟩

/-- Token stream of the query string `fn(i32, i32) -> i32`. -/
def fnQueryToksC1 : List Tok :=
  [.kfn, .paren [.ident "i32", .comma, .ident "i32"], .arrow, .ident "i32"]

/-- The parse of `fn(i32, i32) -> i32`. -/
def qFnI32I32 : FnSignature :=
  ⟨none, [⟨none, some "i32"⟩, ⟨none, some "i32"⟩], .type ⟨"i32", false⟩⟩

/-- `struct Rec { a: u64, b: String }` as extracted from a source file. -/
def recordAB : StructDef :=
  structDefFromSyn
    ⟨"Rec", .named [⟨some "a", ⟨"u64", false⟩⟩, ⟨some "b", ⟨"String", false⟩⟩]⟩

/-- `struct S1 { a: String }` as extracted from a source file. -/
def recAStr : StructDef := structDefFromSyn ⟨"S1", .named [⟨some "a", ⟨"String", false⟩⟩]⟩

/-- `struct S2 { b: bool }` as extracted from a source file. -/
def recBBool : StructDef := structDefFromSyn ⟨"S2", .named [⟨some "b", ⟨"bool", false⟩⟩]⟩

def locRec : Loc := ⟨"recs.rs", 4, 0⟩
def locS1 : Loc := ⟨"s1.rs", 1, 0⟩
def locS2 : Loc := ⟨"s2.rs", 1, 0⟩
def locE : Loc := ⟨"enums.rs", 7, 0⟩
def locM : Loc := ⟨"methods.rs", 2, 4⟩

/-- Token stream of the query string `struct {x: u64}`. -/
def queryXu64Toks : List Tok := [.kstruct, .brace [.ident "x", .colon, .ident "u64"]]

/-- The parse of `struct {x: u64}`: one query field carrying name and type. -/
def qXu64 : StructDef := ⟨none, false, .named [⟨some "x", some "u64"⟩]⟩

/-- Token stream of the query string `struct {a: bool}`. -/
def queryABoolToks : List Tok := [.kstruct, .brace [.ident "a", .colon, .ident "bool"]]

/-- The parse of `struct {a: bool}`. -/
def qABool : StructDef := ⟨none, false, .named [⟨some "a", some "bool"⟩]⟩

/-- Token stream of the query string `struct {u64}` (bare type). -/
def queryBareU64Toks : List Tok := [.kstruct, .brace [.ident "u64"]]

/-- The parse of `struct {u64}`: a bare-type query field. -/
def qBareU64 : StructDef := ⟨none, false, .named [⟨none, some "u64"⟩]⟩

/-- Token stream of the query string `struct Foo;`. -/
def structFooSemiToks : List Tok := [.kstruct, .ident "Foo", .semi]

/-- `enum E { V }` (a unit variant literally named `V`) as extracted from a
source file. -/
def enumEV : EnumDef := enumDefFromSyn ⟨"E", [⟨"V", .unit⟩]⟩

/-- `enum E { X(V) }` (a variant whose unnamed field has type `V`). -/
def enumEXofV : EnumDef :=
  enumDefFromSyn ⟨"E", [⟨"X", .unnamed [⟨none, ⟨"V", false⟩⟩]⟩]⟩

/-- Token stream of the query string `enum Q { V }`. -/
def enumQVToks : List Tok := [.kenum, .ident "Q", .brace [.ident "V"]]

/-- What `enum Q { V }` actually parses to: `V` becomes the TYPE of a single
unnamed field of an anonymous variant, not a variant name. -/
def qEnumQV : EnumDef := ⟨some "q", [⟨none, .unnamed [⟨none, some "v"⟩]⟩]⟩

/-- Token stream of the query string `enum Q { V {} }`. -/
def enumQVBraceToks : List Tok := [.kenum, .ident "Q", .brace [.ident "V", .brace []]]

/-- The parse of `enum Q { V {} }`: here `V` does name the variant. -/
def qEnumQVNamed : EnumDef := ⟨some "q", [⟨some "v", .named []⟩]⟩

/-- A method `fn foo(&self, x: i32) -> i32` inside an `impl` block, as
extracted: `signature_get_inputs` drops the receiver. -/
def methodFooSig : FnSignature :=
  fnSignatureFromSig
    ⟨"foo", [.receiver, .typed (some "x") ⟨"i32", false⟩], .type ⟨"i32", false⟩⟩

/-- Token stream of the query string `fn foo(&self, x: i32) -> i32`. -/
def fnRecvToks : List Tok :=
  [.kfn, .ident "foo", .paren [.amp, .kself, .comma, .ident "x", .colon, .ident "i32"],
   .arrow, .ident "i32"]

/-- Token stream of the query string `fn foo(x: i32) -> i32`. -/
def fnNoRecvToks : List Tok :=
  [.kfn, .ident "foo", .paren [.ident "x", .colon, .ident "i32"], .arrow, .ident "i32"]

/-- The parse of `fn foo(&self, x: i32) -> i32`: the receiver survives as an
anonymous argument of type `& self`. -/
def qFooRecv : FnSignature :=
  ⟨some "foo", [⟨none, some "& self"⟩, ⟨some "x", some "i32"⟩], .type ⟨"i32", false⟩⟩

/-- The parse of `fn foo(x: i32) -> i32`. -/
def qFooNoRecv : FnSignature :=
  ⟨some "foo", [⟨some "x", some "i32"⟩], .type ⟨"i32", false⟩⟩

/-- A corpus file that reads and parses fine, holding one declaration of
each kind. -/
def oneGoodFile : SourceFile :=
  ⟨true, true, [(locM, methodFooSig)], [(locRec, recordAB)], [(locE, enumEV)]⟩

/-- `fn f(a: i32) -> bool` (lower-case spellings). -/
def sigI32Bool : FnSignature := ⟨some "f", [⟨some "a", some "i32"⟩], .type ⟨"bool", false⟩⟩

/-- `fn g(b: I32) -> BOOL`: same shape with upper-case type spellings, as a
raw state of the data type (the constructors lower-case eagerly, and the
equality lower-cases again defensively). -/
def sigI32BoolUpper : FnSignature :=
  ⟨some "g", [⟨some "b", some "I32"⟩], .type ⟨"BOOL", false⟩⟩

/-- `fn() -> ()`: explicit unit return. -/
def sigUnitRet : FnSignature := ⟨none, [], .type ⟨"()", true⟩⟩

/-- `fn()`: no return clause. -/
def sigNoRet : FnSignature := ⟨none, [], .default⟩

/-- `fn(i32)`. -/
def sigOneI32 : FnSignature := ⟨none, [⟨none, some "i32"⟩], .default⟩

/-- `fn(i32, i32)`. -/
def sigTwoI32 : FnSignature := ⟨none, [⟨none, some "i32"⟩, ⟨none, some "i32"⟩], .default⟩

/-! ## Shared lemmas -/

theorem fnSigBeq_iff (a b : FnSignature) :
    fnSigBeq a b = true ↔
      (a.inputs.length = b.inputs.length ∧
       toLowerStr (inputsToString a.inputs) = toLowerStr (inputsToString b.inputs) ∧
       toLowerStr a.output.toTokenString = toLowerStr b.output.toTokenString) := by
  simp [fnSigBeq, Bool.and_eq_true, and_assoc]

theorem fnSigBeq_refl (a : FnSignature) : fnSigBeq a a = true := by
  simp [fnSigBeq_iff]

theorem fnSigBeq_symm {a b : FnSignature} (h : fnSigBeq a b = true) :
    fnSigBeq b a = true := by
  rw [fnSigBeq_iff] at h ⊢
  exact ⟨h.1.symm, h.2.1.symm, h.2.2.symm⟩

theorem fnSigBeq_trans {a b c : FnSignature} (hab : fnSigBeq a b = true)
    (hbc : fnSigBeq b c = true) : fnSigBeq a c = true := by
  rw [fnSigBeq_iff] at hab hbc ⊢
  exact ⟨hab.1.trans hbc.1, hab.2.1.trans hbc.2.1, hab.2.2.trans hbc.2.2⟩

theorem ifThenTrue_eq_or (c b : Bool) : (if c then true else b) = (c || b) := by
  cases c <;> simp

/-! ## Claim theorems -/

/-- C6: function-signature equivalence is an equivalence relation (reflexive,
symmetric, transitive), case-insensitive on types, and treats an explicit
unit return identically to no return clause: `fn(a: i32) -> bool` is
equivalent to `fn(b: I32) -> BOOL`, `fn() -> ()` to `fn()`, while `fn(i32)`
is not equivalent to `fn(i32, i32)`. -/
theorem c6_fn_equivalence :
    (∀ a : FnSignature, fnSigBeq a a = true) ∧
    (∀ a b : FnSignature, fnSigBeq a b = true → fnSigBeq b a = true) ∧
    (∀ a b c : FnSignature,
        fnSigBeq a b = true → fnSigBeq b c = true → fnSigBeq a c = true) ∧
    fnSigBeq sigI32Bool sigI32BoolUpper = true ∧
    fnSigBeq sigUnitRet sigNoRet = true ∧
    fnSigBeq sigOneI32 sigTwoI32 = false :=
  ⟨fnSigBeq_refl, fun _ _ => fnSigBeq_symm, fun _ _ _ => fnSigBeq_trans,
   by decide, by decide, by decide⟩

/-- Witness for C6: the symmetry component applied at concrete signatures. -/
theorem c6_fn_equivalence_witness : fnSigBeq sigI32BoolUpper sigI32Bool = true :=
  c6_fn_equivalence.2.1 sigI32Bool sigI32BoolUpper (by decide)

theorem fnMapGet_matches_add : fnSigBeq qFnI32I32 addFnDecl = true := by decide

theorem fnMapGet_matches_sum : fnSigBeq qFnI32I32 sumFnDecl = true := by decide

/-- C1: function matching is exact and ignores the declared function name and
all parameter names: with file1 declaring `fn add(x: i32, y: i32) -> i32` and
file2 declaring `fn sum(a: i32, b: i32) -> i32` (at any paths and positions),
the query `fn(i32, i32) -> i32` parses and returns both locations. -/
theorem c1_exact_match_ignores_names (p1 p2 : String) (l1 c1 l2 c2 : Nat) :
    parseItem fnQueryToksC1 = some (.fnSignature qFnI32I32) ∧
    fnSearch qFnI32I32 [[(⟨p1, l1, c1⟩, addFnDecl)], [(⟨p2, l2, c2⟩, sumFnDecl)]]
      = [⟨p1, l1, c1⟩, ⟨p2, l2, c2⟩] := by
  refine ⟨rfl, ?_⟩
  simp [fnSearch, fnMapGet, fnMapGet_matches_add, fnMapGet_matches_sum]

/-- C2: a file declaring two functions of the same shape yields exactly one
location under a matching query — the later declaration's — while a
same-shape declaration in another file is still reported; the earlier
location of the duplicating file is never returned. -/
theorem c2_per_file_overwrite (q s1 s2 s3 : FnSignature) (l1 l2 l3 : Loc)
    (hq1 : fnSigBeq q s1 = true) (h12 : fnSigBeq s1 s2 = true)
    (h13 : fnSigBeq s1 s3 = true) (hne : l1 ≠ l2) :
    fnSearch q [[(l1, s1), (l2, s2)], [(l3, s3)]] = [l2, l3] ∧
    fnMapGet [(s1, l1), (s2, l2)] q ≠ some l1 := by
  have hq2 : fnSigBeq q s2 = true := fnSigBeq_trans hq1 h12
  have hq3 : fnSigBeq q s3 = true := fnSigBeq_trans hq1 h13
  constructor
  · simp [fnSearch, fnMapGet, hq1, hq2, hq3]
  · simp [fnMapGet, hq1, hq2]
    exact fun h => hne h.symm

/-- Witness for C2 at a concrete duplicated shape. -/
theorem c2_per_file_overwrite_witness :
    fnSearch qFnI32I32
        [[(⟨"a.rs", 1, 0⟩, addFnDecl), (⟨"a.rs", 9, 0⟩, sumFnDecl)],
         [(⟨"b.rs", 1, 0⟩, addFnDecl)]] = [⟨"a.rs", 9, 0⟩, ⟨"b.rs", 1, 0⟩] ∧
    fnMapGet [(addFnDecl, ⟨"a.rs", 1, 0⟩), (sumFnDecl, ⟨"a.rs", 9, 0⟩)] qFnI32I32
      ≠ some ⟨"a.rs", 1, 0⟩ :=
  c2_per_file_overwrite qFnI32I32 addFnDecl sumFnDecl addFnDecl _ _ _
    (by decide) (by decide) (by decide) (by decide)

/-- C3, counterexample: the record `{a: u64, b: String}` does NOT match the
query `struct {x: u64}` — the query field carries a name, so only the name
criterion is evaluated, no field is named `x`, and the result list is empty
instead of containing the record's location. -/
theorem c3_counterexample :
    parseItem queryXu64Toks = some (.structDef qXu64) ∧
    structSearch qXu64 [[(locRec, recordAB)]] = some [] := by
  exact ⟨rfl, by decide⟩

/-- C3, amended: record matching is a union (OR) over the query's field-level
criteria, where each query field contributes exactly one criterion — its name
when present, otherwise its type.  `{a: u64, b: String}` matches
`struct {a: bool}` (name criterion) and the bare-type query `struct {u64}`
(type criterion) but not `struct {x: u64}`; the result list concatenates the
locations of every satisfied criterion (a two-criterion query value reports
the record once per satisfied criterion). -/
theorem c3_amended :
    parseItem queryABoolToks = some (.structDef qABool) ∧
    parseItem queryBareU64Toks = some (.structDef qBareU64) ∧
    structSearch qABool [[(locRec, recordAB)]] = some [locRec] ∧
    structSearch qBareU64 [[(locRec, recordAB)]] = some [locRec] ∧
    structSearch qXu64 [[(locRec, recordAB)]] = some [] ∧
    structSearch ⟨none, false, .named [⟨some "a", some "bool"⟩, ⟨none, some "u64"⟩]⟩
        [[(locRec, recordAB)]] = some [locRec, locRec] := by
  exact ⟨rfl, rfl, by decide, by decide, by decide, by decide⟩

/-- C10: a record query field carrying both a name and a type uses only the
name criterion — the type is ignored entirely (the search result does not
change when the query field's type is erased) — so `struct {a: bool}` matches
a record with a field named `a` of type `String` and does not match a record
with a `bool` field that is not named `a`. -/
theorem c10_name_criterion_precedence :
    (∀ (nm : Option String) (tup : Bool) (n : String) (ty : Option String)
        (rest : List Field) (files : List (List (Loc × StructDef))),
        structSearch ⟨nm, tup, .named (⟨some n, ty⟩ :: rest)⟩ files =
          structSearch ⟨nm, tup, .named (⟨some n, none⟩ :: rest)⟩ files) ∧
    structSearch qABool [[(locS1, recAStr)], [(locS2, recBBool)]] = some [locS1] := by
  constructor
  · intro nm tup n ty rest files
    rfl
  · decide

/-- C5, counterexample: the query `enum Q { V }` does NOT match the union
`enum E { V }` whose variant is literally named `V`: the parser turns the
trailing lone `V` into the TYPE of an unnamed field of an anonymous variant,
so no variant-name comparison ever happens and the search returns nothing. -/
theorem c5_counterexample :
    parseEnumDefQ enumQVToks = some (qEnumQV, []) ∧
    searchEnumDef qEnumQV [(locE, enumEV)] = [] := by
  exact ⟨rfl, by decide⟩

/-- C5, amended: union matching is the stated short-circuit disjunction of
(a) query name equals candidate name, (b) some query variant name equals some
candidate variant name, (c) some query variant's fields satisfy the
name-or-type criterion against some candidate variant's fields of the same
shape kind — but the query `enum Q { V }` parses `V` as the type of an
unnamed field of an anonymous variant, so it matches a union whose variant
has an unnamed field of type `V` (e.g. `enum E { X(V) }`), not a union merely
having a variant named `V`; writing `enum Q { V {} }` does name the variant
and matches `enum E { V }`. -/
theorem c5_amended :
    (∀ q c : EnumDef, matchesEnumDef q c =
        (optNameEq q.name c.name ||
         q.variants.any (fun qv => c.variants.any (fun v =>
           optNameEq qv.name v.name || matchesFields qv.fields v.fields)))) ∧
    parseEnumDefQ enumQVToks = some (qEnumQV, []) ∧
    searchEnumDef qEnumQV [(locE, enumEXofV)] = [locE] ∧
    parseEnumDefQ enumQVBraceToks = some (qEnumQVNamed, []) ∧
    searchEnumDef qEnumQVNamed [(locE, enumEV)] = [locE] := by
  refine ⟨?_, rfl, by decide, rfl, by decide⟩
  intro q c
  simp [matchesEnumDef, matchesVariant, ifThenTrue_eq_or]

/-- C9, counterexample: the query `fn foo(&self, x: i32) -> i32` parses, but
it does not match the same declarations as `fn foo(x: i32) -> i32`: the
method `fn foo(&self, x: i32) -> i32` (receiver dropped on the corpus side)
is found by the receiver-less query and missed by the verbatim one. -/
theorem c9_counterexample :
    parseItem fnRecvToks = some (.fnSignature qFooRecv) ∧
    parseItem fnNoRecvToks = some (.fnSignature qFooNoRecv) ∧
    fnSearch qFooNoRecv [[(locM, methodFooSig)]] = [locM] ∧
    fnSearch qFooRecv [[(locM, methodFooSig)]] = [] := by
  exact ⟨rfl, rfl, by decide, by decide⟩

/-- C9, amended: a leading receiver token sequence parses, but it survives as
an ordinary anonymous parameter of type `& self`, so the resulting query
requires one extra positional parameter of that literal type and is not
equivalent to the query with the receiver removed. -/
theorem c9_amended :
    qFooRecv.inputs = [⟨none, some "& self"⟩, ⟨some "x", some "i32"⟩] ∧
    fnSigBeq qFooRecv qFooNoRecv = false ∧
    fnSigBeq qFooNoRecv methodFooSig = true ∧
    fnSigBeq qFooRecv methodFooSig = false := by
  exact ⟨rfl, by decide, by decide, by decide⟩

/-- C7, counterexample: the unit-record query `struct Foo;` parses, the
corpus is non-empty, yet the program prints nothing at all — no result lines,
no `[no results]`, and no trailing count of searched files — because the
`Item::StructDef` branch returns early when the query's fields are `Unit`. -/
theorem c7_counterexample :
    parseItem structFooSemiToks = some (.structDef ⟨some "foo", false, .unit⟩) ∧
    runLines (.structDef ⟨some "foo", false, .unit⟩) [oneGoodFile] = [] := by
  exact ⟨rfl, rfl⟩

/-- C7, amended: for function and union queries, and for record queries whose
fields are not `Unit`, the program prints one `file:line:column` line per
match (`[no results]` when the merged list is empty, so an empty corpus or no
structural match never fails) followed by the trailing count of files
searched; a unit-fields record query instead exits successfully printing
nothing. -/
theorem c7_amended :
    (∀ (q : FnSignature) (files : List SourceFile),
        runLines (.fnSignature q) files =
          printResults (fnSearch q ((itemsOf files).map SourceFile.fnsigs)) ++
            [searchedLine (contentsOf files).length]) ∧
    (∀ (q : EnumDef) (files : List SourceFile),
        runLines (.enumDef q) files =
          printResults (searchEnumDef q ((itemsOf files).flatMap SourceFile.enumdefs)) ++
            [searchedLine (contentsOf files).length]) ∧
    (∀ (d : StructDef) (files : List SourceFile), d.fields.isUnitB = false →
        runLines (.structDef d) files =
          printResults ((structSearch d ((itemsOf files).map SourceFile.structdefs)).getD []) ++
            [searchedLine (contentsOf files).length]) ∧
    (∀ (d : StructDef) (files : List SourceFile), d.fields.isUnitB = true →
        runLines (.structDef d) files = []) ∧
    (∀ q : FnSignature, runLines (.fnSignature q) [] = ["[no results]", searchedLine 0]) ∧
    (∀ rs : List Loc,
        (printResults rs).length = if rs.isEmpty then 1 else rs.length) := by
  refine ⟨fun q files => rfl, fun q files => rfl, ?_, ?_, fun q => rfl, ?_⟩
  · intro d files h
    cases hf : d.fields with
    | named fs =>
        simp [runLines, queryResults, structSearch, hf, Fields.parIterOpt]
    | unnamed fs =>
        simp [runLines, queryResults, structSearch, hf, Fields.parIterOpt]
    | unit => rw [hf] at h; cases h
  · intro d files h
    cases hf : d.fields with
    | named fs => rw [hf] at h; cases h
    | unnamed fs => rw [hf] at h; cases h
    | unit =>
        simp [runLines, queryResults, structSearch, hf, Fields.parIterOpt]
  · intro rs
    cases rs with
    | nil => rfl
    | cons l ls => simp [printResults]

/-- Witness for C7 (amended): the non-unit record-query component at a
concrete query and corpus. -/
theorem c7_amended_witness :
    runLines (.structDef qABool) [oneGoodFile] =
      printResults ((structSearch qABool
          ((itemsOf [oneGoodFile]).map SourceFile.structdefs)).getD []) ++
        [searchedLine (contentsOf [oneGoodFile]).length] :=
  c7_amended.2.2.1 qABool [oneGoodFile] (by decide)

theorem itemsOf_filter_good (files : List SourceFile) :
    itemsOf (files.filter (fun f => f.readOk && f.parseOk)) = itemsOf files := by
  induction files with
  | nil => rfl
  | cons f fs ih =>
      by_cases h1 : f.readOk = true <;> by_cases h2 : f.parseOk = true <;>
        simp [itemsOf, contentsOf, List.filter_cons, h1, h2] at ih ⊢ <;>
        simpa [itemsOf, contentsOf] using ih

/-- C8: a file that fails to read or to parse contributes to no shard and no
result — every query's merged result list is the one computed from the
surviving files alone — and a file takes part in indexing and matching
exactly when it is in the corpus with both its read and its parse successful
(drop-and-continue, no retry in the straight-line pipeline). -/
theorem c8_per_file_errors_dropped :
    (∀ (it : Item) (files : List SourceFile),
        queryResults it files =
          queryResults it (files.filter (fun f => f.readOk && f.parseOk))) ∧
    (∀ (files : List SourceFile) (f : SourceFile),
        f ∈ itemsOf files ↔ (f ∈ files ∧ f.readOk = true ∧ f.parseOk = true)) := by
  constructor
  · intro it files
    cases it <;> simp [queryResults, itemsOf_filter_good]
  · intro files f
    simp only [itemsOf, contentsOf, List.mem_filter]
    tauto

/-! ## Lemmas for C4 (shape isolation) -/

theorem mem_allDefsInsert {A : List (Loc × StructDef)} {k : Loc} {d : StructDef}
    {p : Loc × StructDef} (h : p ∈ allDefsInsert A k d) : p = (k, d) ∨ p ∈ A := by
  induction A with
  | nil => simpa [allDefsInsert] using h
  | cons e rest ih =>
      obtain ⟨ek, ev⟩ := e
      by_cases he : ek = k
      · subst he
        simp [allDefsInsert] at h
        rcases h with h | h
        · exact Or.inl (by simp [h])
        · exact Or.inr (List.mem_cons_of_mem _ h)
      · simp [allDefsInsert, he] at h
        rcases h with h | h
        · exact Or.inr (by simp [h])
        · rcases ih h with h | h
          · exact Or.inl h
          · exact Or.inr (List.mem_cons_of_mem _ h)

theorem allDefsLookup_mem {A : List (Loc × StructDef)} {l : Loc} {d : StructDef}
    (h : allDefsLookup A l = some d) : (l, d) ∈ A := by
  induction A with
  | nil => simp [allDefsLookup] at h
  | cons e rest ih =>
      obtain ⟨ek, ev⟩ := e
      by_cases he : ek = l
      · subst he
        simp [allDefsLookup] at h
        simp [h]
      · simp [allDefsLookup, he] at h
        exact List.mem_cons_of_mem _ (ih h)

/-- The per-field fold of `StructDefMap::insert` never touches `all_defs`. -/
theorem fieldsFold_all_defs (fs : List Field) (loc : Loc) (m : StructDefMap) :
    (fs.foldl (sdmInsertFieldStep loc) m).all_defs = m.all_defs := by
  induction fs generalizing m with
  | nil => rfl
  | cons f rest ih =>
      rw [List.foldl_cons, ih]
      unfold sdmInsertFieldStep
      cases f.name <;> cases f.ty <;> simp

theorem sdmInsert_all_defs (m : StructDefMap) (d : StructDef) (loc : Loc) :
    (sdmInsert m d loc).all_defs = allDefsInsert m.all_defs loc d := by
  unfold sdmInsert
  simp [fieldsFold_all_defs]

theorem buildFold_all_defs_mem {defs : List (Loc × StructDef)} {m : StructDefMap}
    {p : Loc × StructDef}
    (h : p ∈ (defs.foldl (fun m q => sdmInsert m q.2 q.1) m).all_defs) :
    p ∈ defs ∨ p ∈ m.all_defs := by
  induction defs generalizing m with
  | nil => exact Or.inr h
  | cons q rest ih =>
      rw [List.foldl_cons] at h
      rcases ih h with h | h
      · exact Or.inl (List.mem_cons_of_mem _ h)
      · rw [sdmInsert_all_defs] at h
        rcases mem_allDefsInsert h with h | h
        · exact Or.inl (by simp [h])
        · exact Or.inr h

theorem buildStructMap_all_defs_mem {defs : List (Loc × StructDef)}
    {p : Loc × StructDef} (h : p ∈ (buildStructMap defs).all_defs) : p ∈ defs := by
  unfold buildStructMap sdmFinalize at h
  rcases buildFold_all_defs_mem h with h | h
  · exact h
  · simp [sdmNew] at h

theorem mem_sdmFindTypes {m : StructDefMap} {ty : String} {b : Bool} {loc : Loc}
    (h : loc ∈ sdmFindTypes m ty b) :
    ∃ d, (loc, d) ∈ m.all_defs ∧ d.is_tup = b := by
  unfold sdmFindTypes at h
  cases hl : typesLookup m.types ty with
  | none => simp [hl] at h
  | some s =>
      rw [hl] at h
      obtain ⟨-, hcond⟩ := List.mem_filter.mp h
      cases hd : allDefsLookup m.all_defs loc with
      | none => rw [hd] at hcond; cases hcond
      | some d =>
          rw [hd] at hcond
          exact ⟨d, allDefsLookup_mem hd, by simpa using hcond⟩

theorem mem_sdmFindNames {m : StructDefMap} {n : String} {b : Bool} {loc : Loc}
    (h : loc ∈ sdmFindNames m n b) :
    ∃ d, (loc, d) ∈ m.all_defs ∧ d.is_tup = b := by
  unfold sdmFindNames at h
  cases hn : m.names with
  | none => simp [hn] at h
  | some names =>
      rw [hn] at h
      rw [List.mem_flatMap] at h
      obtain ⟨name, -, hmem⟩ := h
      obtain ⟨p, hp, hcond⟩ := List.mem_filterMap.mp hmem
      by_cases htup : p.2.is_tup != b
      · rw [if_pos htup] at hcond; cases hcond
      · rw [if_neg htup] at hcond
        cases hfs : p.2.fields.parIterOpt with
        | none => rw [hfs] at hcond; cases hcond
        | some fs =>
            rw [hfs] at hcond
            dsimp only at hcond
            split at hcond
            · have hploc : p.1 = loc := by simpa using hcond
              refine ⟨p.2, ?_, ?_⟩
              · rw [← hploc]; simpa using hp
              · simpa using htup
            · cases hcond

/-- C4: tuple/named isolation — a query of one tuple-ness never returns the
location of a record of the other tuple-ness, whichever query field
(name-based or type-based) produced the candidate: if every definition
recorded at `loc` in the corpus has a tuple-ness different from the query's,
then `loc` is not among the results. -/
theorem c4_shape_isolation (q : StructDef) (files : List (List (Loc × StructDef)))
    (loc : Loc)
    (h : ∀ defs ∈ files, ∀ p ∈ defs, (p : Loc × StructDef).1 = loc →
          p.2.is_tup ≠ q.is_tup) :
    loc ∉ (structSearch q files).getD [] := by
  intro hmem
  unfold structSearch at hmem
  cases hq : q.fields.parIterOpt with
  | none => rw [hq] at hmem; simp at hmem
  | some qfields =>
      rw [hq] at hmem
      simp only [Option.getD_some, List.mem_flatMap] at hmem
      obtain ⟨f, -, hloc⟩ := hmem
      have key : ∃ defs ∈ files, ∃ d, (loc, d) ∈ defs ∧ d.is_tup = q.is_tup := by
        rcases hfn : f.name with - | n
        · rcases hft : f.ty with - | ty
          · rw [hfn, hft] at hloc; cases hloc
          · rw [hfn, hft] at hloc
            rw [List.mem_flatMap] at hloc
            obtain ⟨m, hm, hfind⟩ := hloc
            obtain ⟨defs, hdefs, rfl⟩ := List.mem_map.mp hm
            obtain ⟨d, hd, htup⟩ := mem_sdmFindTypes hfind
            exact ⟨defs, hdefs, d, buildStructMap_all_defs_mem hd, htup⟩
        · rw [hfn] at hloc
          rw [List.mem_flatMap] at hloc
          obtain ⟨m, hm, hfind⟩ := hloc
          obtain ⟨defs, hdefs, rfl⟩ := List.mem_map.mp hm
          obtain ⟨d, hd, htup⟩ := mem_sdmFindNames hfind
          exact ⟨defs, hdefs, d, buildStructMap_all_defs_mem hd, htup⟩
      obtain ⟨defs, hdefs, d, hd, htup⟩ := key
      exact h defs hdefs (loc, d) hd rfl htup

/-- Witness for C4: the tuple query `(u64)` against the named record
`{a: u64, b: String}`. -/
theorem c4_shape_isolation_witness :
    locRec ∉ (structSearch ⟨none, true, .unnamed [⟨none, some "u64"⟩]⟩
        [[(locRec, recordAB)]]).getD [] :=
  c4_shape_isolation _ _ _ (by decide)

end Roogle
